import Mathlib

/-!
# Wave Period Histogram (`main.c`)

A shallow embedding of the sampling-and-binning pipeline of `main.c`:
the input-capture interrupt handler `OC1_isr`, and the three `for` loops of
`main` (time differentials, bucket counts, report-and-clear).

Conventions.
* `UINT16` values are natural numbers reduced modulo `2^16`; `UINT8` modulo `2^8`.
  The target has a 16-bit `int`, so `UINT16` arithmetic is done modulo `2^16`.
* The global arrays are lists; an access outside the declared extent is the
  fault `Fault.outOfBounds` (undefined behaviour in C).
* Loops carry a fuel argument; running dry is the fault `Fault.outOfFuel`.
* The macro `NUM_READINGS` is a parameter `N` of the definitions; the value the
  source gives it is `NUM_READINGS = 1000`.
-/

namespace WavePeriod

/-! ## Constants -/

/-- `#define NUM_READINGS (1000)` -/
def NUM_READINGS : Nat := 1000
/-- `#define BUCKET_MAX (1050)` -/
def BUCKET_MAX : Nat := 1050
/-- `#define BUCKET_MIN (950)` -/
def BUCKET_MIN : Nat := 950
/-- `#define NUM_BUCKETS (BUCKET_MAX - BUCKET_MIN)` -/
def NUM_BUCKETS : Nat := BUCKET_MAX - BUCKET_MIN
/-- `#define MAX_PAUSE_LINES (1)` -/
def MAX_PAUSE_LINES : Nat := 1
/-- `#define OC_FREQ_HZ ((UINT16)10)` -/
def OC_FREQ_HZ : Nat := 10
/-- `#define BUS_CLK_FREQ ((UINT32) 2)` -/
def BUS_CLK_FREQ : Nat := 2
/-- `#define PRESCALE ((UINT16) 2)` -/
def PRESCALE : Nat := 2
/-- `#define TC1_VAL ((UINT16) (((BUS_CLK_FREQ / PRESCALE) / 2) / OC_FREQ_HZ))` -/
def TC1_VAL : Nat := (((BUS_CLK_FREQ / PRESCALE) / 2) / OC_FREQ_HZ) % 65536

/-- Conversion of an integer to `UINT16` (reduction modulo `2^16`). -/
def toU16 (x : Int) : Nat := (x % 65536).toNat

/-- Conversion of an integer to `UINT8` (reduction modulo `2^8`). -/
def toU8 (x : Int) : Nat := (x % 256).toNat

/-! ## Machine state -/

/-- Ways a run of the embedded code can fail to produce a state. -/
inductive Fault where
  | outOfBounds
  | outOfFuel
  deriving DecidableEq, Repr

/-- The globals of `main.c`, the hardware bits the handler touches, the locals
of `main` that live across the loops, and the histogram lines printed. -/
structure Machine where
  /-- `UINT16 timeValues[ NUM_READINGS + 1 ]` -/
  timeValues : List Nat
  /-- `UINT16 bucketCounts[ NUM_BUCKETS ]` -/
  bucketCounts : List Nat
  /-- `UINT16 numRecorded` -/
  numRecorded : Nat
  /-- timer compare register `TC1` -/
  TC1 : Nat
  /-- channel-1 interrupt flag (bit `C1F` of `TFLG1`) -/
  C1F : Bool
  /-- channel-1 interrupt enable bit `TIE_C1I` -/
  TIE_C1I : Bool
  /-- local `UINT16 measInRange` of `main` -/
  measInRange : Nat
  /-- local `UINT16 minValue` of `main` -/
  minValue : Nat
  /-- local `UINT16 maxValue` of `main` -/
  maxValue : Nat
  /-- local `UINT8 pCounter` of `main` (never initialised by the source) -/
  pCounter : Nat
  /-- the `(bucket value, count)` pairs printed by the `"\t%u us: %u"` line -/
  printed : List (Nat × Nat)
  deriving DecidableEq, Repr

/-- Read `a[i]`; outside the array it is a fault. -/
def readAt (a : List Nat) (i : Nat) : Except Fault Nat :=
  if i < a.length then .ok (a.getD i 0) else .error .outOfBounds

/-- Write `a[i] = v`; outside the array it is a fault. -/
def writeAt (a : List Nat) (i : Nat) (v : Nat) : Except Fault (List Nat) :=
  if i < a.length then .ok (a.set i v) else .error .outOfBounds

/-! ## The interrupt handler -/

/-- `void interrupt 9 OC1_isr( void )`, with `TCNT` the timer count it reads.
```
timeValues[numRecorded++] = (UINT16)TCNT;
TC1 += TC1_VAL;  TFLG1 = TFLG1_C1F_MASK;
if( numRecorded > NUM_READINGS ){ TIE_C1I = 0; }
``` -/
def OC1_isr (N : Nat) (TCNT : Nat) (m : Machine) : Except Fault Machine :=
  match writeAt m.timeValues m.numRecorded (toU16 TCNT) with
  | .error e => .error e
  | .ok tv =>
    let nr := toU16 (m.numRecorded + 1)
    .ok { m with
      timeValues := tv
      numRecorded := nr
      TC1 := toU16 (m.TC1 + TC1_VAL)
      C1F := false
      TIE_C1I := if nr > N then false else m.TIE_C1I }

/-- Deliver a sequence of rising edges (each with the timer count at that
moment) to the machine: the hardware invokes `OC1_isr` for an edge exactly when
the channel interrupt is enabled. The second component logs, per invocation of
the handler, the index of `timeValues` it wrote. -/
def runEdges (N : Nat) : Machine → List Nat → Except Fault (Machine × List Nat)
  | m, [] => .ok (m, [])
  | m, t :: ts =>
    if m.TIE_C1I then
      match OC1_isr N t m with
      | .error e => .error e
      | .ok m1 =>
        match runEdges N m1 ts with
        | .error e => .error e
        | .ok r => .ok (r.1, m.numRecorded :: r.2)
    else runEdges N m ts

/-! ## `main` -/

/-- Start of a session in `main`:
`TIE_C1I = 1; numRecorded = 0; measInRange = 0;` -/
def sessionStart (m : Machine) : Machine :=
  { m with TIE_C1I := true, numRecorded := 0, measInRange := 0 }

/-- The busy-wait `while( numRecorded < NUM_READINGS ){}` of `main` is left in
exactly the states where its condition is false. -/
def waitDone (N : Nat) (m : Machine) : Bool := !(decide (m.numRecorded < N))

/-- The loop shape shared by the three loops of `main`:
`for( ; numRecorded<bound; numRecorded++ ){ body }` (the initialisation
`numRecorded = 0` is done by the caller). -/
def forLoop (bound : Nat) (body : Machine → Except Fault Machine) :
    Nat → Machine → Except Fault Machine
  | 0, _ => .error .outOfFuel
  | fuel + 1, m =>
    if m.numRecorded < bound then
      match body m with
      | .error e => .error e
      | .ok m1 => forLoop bound body fuel { m1 with numRecorded := toU16 (m1.numRecorded + 1) }
    else .ok m

/-- Body of the time-differential loop:
```
timeValues[numRecorded] = timeValues[numRecorded+1] - timeValues[numRecorded];
if( timeValues[numRecorded] > maxValue ){ maxValue = timeValues[numRecorded]; }
if( timeValues[numRecorded] < minValue ){ minValue = timeValues[numRecorded]; }
``` -/
def deltaBody (m : Machine) : Except Fault Machine :=
  match readAt m.timeValues (toU16 (m.numRecorded + 1)) with
  | .error e => .error e
  | .ok a =>
    match readAt m.timeValues m.numRecorded with
    | .error e => .error e
    | .ok b =>
      let d := toU16 ((a : Int) - (b : Int))
      match writeAt m.timeValues m.numRecorded d with
      | .error e => .error e
      | .ok tv =>
        .ok { m with
          timeValues := tv
          maxValue := if d > m.maxValue then d else m.maxValue
          minValue := if d < m.minValue then d else m.minValue }

/-- `for( numRecorded = 0; numRecorded<NUM_READINGS; numRecorded++ )` over `deltaBody`. -/
def deltaLoop (N : Nat) (fuel : Nat) (m : Machine) : Except Fault Machine :=
  forLoop N deltaBody fuel { m with numRecorded := 0 }

/-- Body of the bucket-count loop:
`bucketCounts[ timeValues[numRecorded] - BUCKET_MIN ] += 1;` -/
def binBody (m : Machine) : Except Fault Machine :=
  match readAt m.timeValues m.numRecorded with
  | .error e => .error e
  | .ok p =>
    let idx := toU16 ((p : Int) - (BUCKET_MIN : Int))
    match readAt m.bucketCounts idx with
    | .error e => .error e
    | .ok c =>
      match writeAt m.bucketCounts idx (toU16 (c + 1)) with
      | .error e => .error e
      | .ok bc => .ok { m with bucketCounts := bc }

/-- `for( numRecorded = 0; numRecorded<NUM_READINGS; numRecorded++ )` over `binBody`. -/
def binLoop (N : Nat) (fuel : Nat) (m : Machine) : Except Fault Machine :=
  forLoop N binBody fuel { m with numRecorded := 0 }

/-- Body of the report loop:
```
if( bucketCounts[numRecorded] != 0 ){
  printf("\t%u us: %u\n\r", numRecorded+BUCKET_MIN, bucketCounts[numRecorded]);
  measInRange += bucketCounts[numRecorded];
  bucketCounts[numRecorded] = 0;
  if(( pCounter == MAX_PAUSE_LINES )){ userInput = GetChar(); pCounter = 0; }
  pCounter++;
}
```
`GetChar` is taken to return. -/
def reportBody (m : Machine) : Except Fault Machine :=
  match readAt m.bucketCounts m.numRecorded with
  | .error e => .error e
  | .ok c =>
    if c ≠ 0 then
      match writeAt m.bucketCounts m.numRecorded 0 with
      | .error e => .error e
      | .ok bc =>
        .ok { m with
          printed := m.printed ++ [(toU16 (m.numRecorded + BUCKET_MIN), c)]
          measInRange := toU16 (m.measInRange + c)
          bucketCounts := bc
          pCounter := toU8 ((if m.pCounter = MAX_PAUSE_LINES then 0 else m.pCounter) + 1) }
    else .ok m

/-- `for( numRecorded = 0; numRecorded<NUM_BUCKETS; numRecorded++ )` over `reportBody`. -/
def reportLoop (fuel : Nat) (m : Machine) : Except Fault Machine :=
  forLoop NUM_BUCKETS reportBody fuel { m with numRecorded := 0 }

/-- The two computing loops of a session of `main` in sequence: the
time-differential loop, then the bucket-count loop. -/
def computeResults (N : Nat) (fuel : Nat) (m : Machine) : Except Fault Machine :=
  match deltaLoop N fuel m with
  | .error e => .error e
  | .ok m1 => binLoop N fuel m1

/-- The value `UINT16 minValue = 99999;` stores. -/
def minValueInit : Nat := toU16 99999

/-- End of a session in `main`: `minValue = 99999; maxValue = 0;` -/
def sessionEnd (m : Machine) : Machine :=
  { m with minValue := minValueInit, maxValue := 0 }

/-- State of `main` at the top of the session loop, with `tv` the content of
`timeValues` and `bc` the content of `bucketCounts`: `minValue` and `maxValue`
hold their (re)set values and the handler is not yet enabled; `measInRange` and
`pCounter`, which the source has not assigned at this point, are shown as 0. -/
def atSessionTop (tv bc : List Nat) : Machine :=
  { timeValues := tv
    bucketCounts := bc
    numRecorded := 0
    TC1 := TC1_VAL
    C1F := false
    TIE_C1I := false
    measInRange := 0
    minValue := minValueInit
    maxValue := 0
    pCounter := 0
    printed := [] }

/-- Raw samples of a session whose first two periods are 500 and 1100. -/
def rawOutOfRange : List Nat := 0 :: 500 :: List.replicate (NUM_READINGS - 1) 1600

/-- Raw samples of a 25 Hz signal: every period is 40000 timer counts. -/
def rawSlow : List Nat := (List.range (NUM_READINGS + 1)).map (fun i => (40000 * i) % 65536)

/-- The `i`-th inter-arrival period of a raw sample series, as a `UINT16`:
`raw[i+1] - raw[i]` modulo `2^16`. -/
def period (raw : List Nat) (i : Nat) : Nat :=
  toU16 ((raw.getD (i + 1) 0 : Int) - (raw.getD i 0 : Int))

/-- Invariant of the time-differential loop at index `i`, started on `m0`
(whose `timeValues` holds the raw samples). -/
def DeltaInv (N : Nat) (m0 : Machine) (i : Nat) (m : Machine) : Prop :=
  m.timeValues.length = N + 1 ∧
  (∀ j, j < i → m.timeValues.getD j 0 = period m0.timeValues j) ∧
  (∀ j, i ≤ j → m.timeValues.getD j 0 = m0.timeValues.getD j 0) ∧
  (m.bucketCounts = m0.bucketCounts ∧ m.measInRange = m0.measInRange ∧
    m.printed = m0.printed ∧ m.TIE_C1I = m0.TIE_C1I) ∧
  ((∀ j, j < i → period m0.timeValues j ≤ m.maxValue) ∧ m0.maxValue ≤ m.maxValue ∧
    (m.maxValue = m0.maxValue ∨ ∃ j, j < i ∧ m.maxValue = period m0.timeValues j)) ∧
  ((∀ j, j < i → m.minValue ≤ period m0.timeValues j) ∧ m.minValue ≤ m0.minValue ∧
    (m.minValue = m0.minValue ∨ ∃ j, j < i ∧ m.minValue = period m0.timeValues j))

/-- Number of indices `j < i` whose period value is `v`. -/
def occurrences (tv : List Nat) (i : Nat) (v : Nat) : Nat :=
  (List.range i).countP (fun j => decide (tv.getD j 0 = v))

/-- Invariant of the bucket-count loop at index `i`, started on `m0` with an
all-zero table. -/
def BinInv (m0 : Machine) (i : Nat) (m : Machine) : Prop :=
  m.timeValues = m0.timeValues ∧
  m.bucketCounts.length = NUM_BUCKETS ∧
  (∀ b, b < NUM_BUCKETS →
    m.bucketCounts.getD b 0 = occurrences m0.timeValues i (BUCKET_MIN + b)) ∧
  (m.measInRange = m0.measInRange ∧ m.printed = m0.printed ∧
    m.minValue = m0.minValue ∧ m.maxValue = m0.maxValue)

/-- The lines the report loop prints for the buckets below `i` of table `t`. -/
def reportLines (t : List Nat) (i : Nat) : List (Nat × Nat) :=
  ((List.range i).filter (fun j => decide (t.getD j 0 ≠ 0))).map
    (fun j => (j + BUCKET_MIN, t.getD j 0))

/-- Sum of the counters of the buckets below `i` of table `t`. -/
def countSum (t : List Nat) (i : Nat) : Nat :=
  ((List.range i).map (fun j => t.getD j 0)).sum

/-- Invariant of the report loop at index `i`, started on `m0`. -/
def ReportInv (m0 : Machine) (i : Nat) (m : Machine) : Prop :=
  m.bucketCounts.length = NUM_BUCKETS ∧
  (∀ j, j < i → m.bucketCounts.getD j 0 = 0) ∧
  (∀ j, i ≤ j → m.bucketCounts.getD j 0 = m0.bucketCounts.getD j 0) ∧
  m.printed = m0.printed ++ reportLines m0.bucketCounts i ∧
  m.measInRange = (if countSum m0.bucketCounts i = 0 then m0.measInRange
    else (m0.measInRange + countSum m0.bucketCounts i) % 65536) ∧
  (m.timeValues = m0.timeValues ∧ m.minValue = m0.minValue ∧ m.maxValue = m0.maxValue)

/-! ## Loop rule -/

theorem toU16_of_lt {n : Nat} (h : n < 65536) : toU16 (n : Int) = n := by
  unfold toU16
  omega

theorem toU16_succ {n : Nat} (h : n + 1 < 65536) : toU16 ((n : Int) + 1) = n + 1 := by
  unfold toU16
  omega

/-- Hoare-style rule for `forLoop`: an invariant `P i` that the body carries
from index `i` to `i + 1` holds at `bound` when the loop ends, and the loop
does end once the fuel exceeds the remaining iterations. -/
theorem forLoop_rule (bound : Nat) (body : Machine → Except Fault Machine)
    (P : Nat → Machine → Prop) (hb : bound < 65536)
    (hstep : ∀ i m, i < bound → m.numRecorded = i → P i m →
      ∃ m1, body m = .ok m1 ∧ m1.numRecorded = i ∧
        P (i + 1) { m1 with numRecorded := i + 1 }) :
    ∀ fuel i m, i ≤ bound → bound - i < fuel → m.numRecorded = i → P i m →
      ∃ m', forLoop bound body fuel m = .ok m' ∧ m'.numRecorded = bound ∧ P bound m' := by
  intro fuel
  induction fuel with
  | zero => intro i m _ h; omega
  | succ fuel ih =>
    intro i m hi hf hn hP
    by_cases hlt : i < bound
    · obtain ⟨m1, hbody, hn1, hP1⟩ := hstep i m hlt hn hP
      have h16 : toU16 ((m1.numRecorded : Int) + 1) = i + 1 := by
        rw [hn1]; exact toU16_succ (by omega)
      have := ih (i + 1) { m1 with numRecorded := i + 1 } (by omega) (by omega) rfl hP1
      simp only [forLoop, hn, hlt, if_true, hbody]
      simpa [h16] using this
    · have hib : i = bound := by omega
      subst hib
      refine ⟨m, ?_, hn, hP⟩
      simp [forLoop, hn]

theorem getD_set_self (l : List Nat) (i v : Nat) (h : i < l.length) :
    (l.set i v).getD i 0 = v := by
  simp [List.getD_eq_getElem?_getD, List.getElem?_set, h]

theorem getD_set_ne (l : List Nat) (i j v : Nat) (h : i ≠ j) :
    (l.set i v).getD j 0 = l.getD j 0 := by
  simp [List.getD_eq_getElem?_getD, List.getElem?_set, h]

theorem readAt_ok (a : List Nat) (i : Nat) (h : i < a.length) :
    readAt a i = .ok (a.getD i 0) := by
  unfold readAt
  rw [if_pos h]

theorem writeAt_ok (a : List Nat) (i v : Nat) (h : i < a.length) :
    writeAt a i v = .ok (a.set i v) := by
  unfold writeAt
  rw [if_pos h]

theorem readAt_fault (a : List Nat) (i : Nat) (h : a.length ≤ i) :
    readAt a i = .error .outOfBounds := by
  unfold readAt
  rw [if_neg (by omega)]

/-! ## The capture handler -/

theorem runEdges_disabled (N : Nat) (ts : List Nat) (m : Machine) (h : m.TIE_C1I = false) :
    runEdges N m ts = .ok (m, []) := by
  induction ts with
  | nil => rfl
  | cons t ts ih => simp [runEdges, h, ih]

/-- Effect of a burst of edges on a machine whose handler is enabled and has
recorded `i` samples so far. -/
theorem runEdges_spec (N : Nat) (hN : N + 1 < 65536) :
    ∀ (ts : List Nat) (i : Nat) (m : Machine), i ≤ N → m.numRecorded = i →
      m.TIE_C1I = true → m.timeValues.length = N + 1 →
      ∃ m', runEdges N m ts = .ok (m', List.range' i (min ts.length (N + 1 - i))) ∧
        m'.TIE_C1I = decide (ts.length < N + 1 - i) ∧
        m'.numRecorded = i + min ts.length (N + 1 - i) ∧
        m'.timeValues.length = N + 1 ∧
        m'.bucketCounts = m.bucketCounts ∧
        (∀ k, k < min ts.length (N + 1 - i) →
          m'.timeValues.getD (i + k) 0 = toU16 (ts.getD k 0)) ∧
        (∀ j, j < i ∨ i + min ts.length (N + 1 - i) ≤ j →
          m'.timeValues.getD j 0 = m.timeValues.getD j 0) := by
  intro ts
  induction ts with
  | nil =>
    intro i m hi hn hT hlen
    refine ⟨m, ?_, ?_, ?_, hlen, rfl, ?_, ?_⟩
    · simp [runEdges]
    · rw [hT]; simp; omega
    · simp [hn]
    · intro k hk; simp at hk
    · intro j _; rfl
  | cons t ts ih =>
    intro i m hi hn hT hlen
    have hw : writeAt m.timeValues m.numRecorded (toU16 t) =
        .ok (m.timeValues.set i (toU16 t)) := by
      simp [writeAt, hn, hlen]; omega
    have h16 : toU16 ((m.numRecorded : Int) + 1) = i + 1 := by
      rw [hn]; exact toU16_succ (by omega)
    by_cases hlast : i = N
    · -- the write at index `N` is the one that disables the interrupt
      have hoff := runEdges_disabled N ts
        { m with
          timeValues := m.timeValues.set i (toU16 t)
          numRecorded := i + 1
          TC1 := toU16 (m.TC1 + TC1_VAL)
          C1F := false
          TIE_C1I := false } rfl
      have hmin : min (t :: ts).length (N + 1 - i) = 1 := by
        simp only [List.length_cons]; omega
      rw [hmin]
      refine ⟨{ m with
          timeValues := m.timeValues.set i (toU16 t)
          numRecorded := i + 1
          TC1 := toU16 (m.TC1 + TC1_VAL)
          C1F := false
          TIE_C1I := false }, ?_, ?_, ?_, ?_, ?_, ?_, ?_⟩
      · simp only [runEdges, hT, if_true, OC1_isr, hw, h16]
        rw [if_pos (by omega), hoff]
        simp [hn]
      · simp only [List.length_cons]
        symm; rw [decide_eq_false_iff_not]; omega
      · rfl
      · simp [hlen]
      · rfl
      · intro k hk
        have hk0 : k = 0 := by omega
        subst hk0
        simpa using getD_set_self m.timeValues i (toU16 t) (by omega)
      · intro j hj
        have hji : i ≠ j := by omega
        exact getD_set_ne m.timeValues i j (toU16 t) hji
    · have hi1 : i + 1 ≤ N := by omega
      obtain ⟨m', hrun, hT', hn', hlen', hbc', hnew, hold⟩ := ih (i + 1)
        { m with
          timeValues := m.timeValues.set i (toU16 t)
          numRecorded := i + 1
          TC1 := toU16 (m.TC1 + TC1_VAL)
          C1F := false
          TIE_C1I := true } hi1 rfl rfl (by simp [hlen])
      have hmin : min (t :: ts).length (N + 1 - i) = min ts.length (N + 1 - (i + 1)) + 1 := by
        simp only [List.length_cons]; omega
      rw [hmin]
      refine ⟨m', ?_, ?_, ?_, hlen', hbc', ?_, ?_⟩
      · simp only [runEdges, hT, if_true, OC1_isr, hw, h16]
        rw [if_neg (by omega), hrun]
        simp [hn, List.range'_succ]
      · rw [hT']; simp only [List.length_cons, decide_eq_decide]; omega
      · rw [hn']; omega
      · intro k hk
        cases k with
        | zero =>
          have := hold i (Or.inl (by omega))
          simp only [Nat.add_zero, List.getD_cons_zero]
          rw [this]
          exact getD_set_self m.timeValues i (toU16 t) (by omega)
        | succ k =>
          have := hnew k (by omega)
          simp only [List.getD_cons_succ]
          rw [← this]; congr 1; omega
      · intro j hj
        have hji : i ≠ j := by omega
        have := hold j (by omega)
        rw [this]
        exact getD_set_ne m.timeValues i j (toU16 t) hji

/-! ## The time-differential loop -/

theorem deltaBody_step (N : Nat) (hN : N < 65536) (m0 : Machine) (i : Nat) (m : Machine)
    (hi : i < N) (hn : m.numRecorded = i) (hP : DeltaInv N m0 i m) :
    ∃ m1, deltaBody m = .ok m1 ∧ m1.numRecorded = i ∧
      DeltaInv N m0 (i + 1) { m1 with numRecorded := i + 1 } := by
  obtain ⟨hlen, hdone, htodo, hrest, ⟨hmaxub, hmaxmono, hmaxatt⟩,
    ⟨hminlb, hminmono, hminatt⟩⟩ := hP
  have h16 : toU16 ((m.numRecorded : Int) + 1) = i + 1 := by
    rw [hn]; exact toU16_succ (by omega)
  have hr1 : readAt m.timeValues (i + 1) = .ok (m0.timeValues.getD (i + 1) 0) := by
    rw [readAt_ok _ _ (by omega), htodo (i + 1) (by omega)]
  have hr0 : readAt m.timeValues m.numRecorded = .ok (m0.timeValues.getD i 0) := by
    rw [hn, readAt_ok _ _ (by omega), htodo i (le_refl i)]
  have hw : ∀ v, writeAt m.timeValues m.numRecorded v = .ok (m.timeValues.set i v) := by
    intro v
    rw [hn, writeAt_ok _ _ _ (by omega)]
  refine ⟨{ m with
      timeValues := m.timeValues.set i (period m0.timeValues i)
      maxValue := if period m0.timeValues i > m.maxValue then period m0.timeValues i
        else m.maxValue
      minValue := if period m0.timeValues i < m.minValue then period m0.timeValues i
        else m.minValue }, ?_, hn, ?_⟩
  · unfold deltaBody
    rw [h16, hr1, hr0]
    simp only [hw]
    rfl
  · refine ⟨by simp [hlen], ?_, ?_, hrest, ⟨?_, ?_, ?_⟩, ⟨?_, ?_, ?_⟩⟩
    · intro j hj
      by_cases hji : j = i
      · subst hji
        exact getD_set_self m.timeValues j _ (by omega)
      · have := getD_set_ne m.timeValues i j (period m0.timeValues i) (Ne.symm hji)
        show (m.timeValues.set i (period m0.timeValues i)).getD j 0 = _
        rw [this]; exact hdone j (by omega)
    · intro j hj
      have := getD_set_ne m.timeValues i j (period m0.timeValues i) (by omega)
      show (m.timeValues.set i (period m0.timeValues i)).getD j 0 = _
      rw [this]; exact htodo j (by omega)
    · intro j hj
      show _ ≤ (if period m0.timeValues i > m.maxValue then period m0.timeValues i
        else m.maxValue)
      by_cases hji : j = i
      · subst hji; split <;> omega
      · have := hmaxub j (by omega)
        split <;> omega
    · show _ ≤ (if period m0.timeValues i > m.maxValue then period m0.timeValues i
        else m.maxValue)
      split <;> omega
    · show (if period m0.timeValues i > m.maxValue then period m0.timeValues i
        else m.maxValue) = _ ∨ _
      split
      · exact Or.inr ⟨i, by omega, rfl⟩
      · rcases hmaxatt with h | ⟨j, hj, h⟩
        · exact Or.inl h
        · exact Or.inr ⟨j, by omega, h⟩
    · intro j hj
      show (if period m0.timeValues i < m.minValue then period m0.timeValues i
        else m.minValue) ≤ _
      by_cases hji : j = i
      · subst hji; split <;> omega
      · have := hminlb j (by omega)
        split <;> omega
    · show (if period m0.timeValues i < m.minValue then period m0.timeValues i
        else m.minValue) ≤ _
      split <;> omega
    · show (if period m0.timeValues i < m.minValue then period m0.timeValues i
        else m.minValue) = _ ∨ _
      split
      · exact Or.inr ⟨i, by omega, rfl⟩
      · rcases hminatt with h | ⟨j, hj, h⟩
        · exact Or.inl h
        · exact Or.inr ⟨j, by omega, h⟩

/-- The time-differential loop runs to completion on a full buffer and
establishes its invariant at `N`. -/
theorem deltaLoop_spec (N : Nat) (hN : N < 65536) (m0 : Machine)
    (hlen : m0.timeValues.length = N + 1) (fuel : Nat) (hf : N < fuel) :
    ∃ m', deltaLoop N fuel m0 = .ok m' ∧ m'.numRecorded = N ∧ DeltaInv N m0 N m' := by
  have hstart : DeltaInv N m0 0 { m0 with numRecorded := 0 } := by
    refine ⟨hlen, ?_, ?_, ⟨rfl, rfl, rfl, rfl⟩, ⟨?_, le_refl _, Or.inl rfl⟩,
      ⟨?_, le_refl _, Or.inl rfl⟩⟩
    · intro j hj; omega
    · intro j _; rfl
    · intro j hj; omega
    · intro j hj; omega
  exact forLoop_rule N deltaBody (DeltaInv N m0) hN
    (fun i m hi hn hP => deltaBody_step N hN m0 i m hi hn hP)
    fuel 0 { m0 with numRecorded := 0 } (Nat.zero_le N) (by omega) rfl hstart

/-! ## The bucket-count loop -/

theorem occurrences_succ (tv : List Nat) (i v : Nat) :
    occurrences tv (i + 1) v = occurrences tv i v + (if tv.getD i 0 = v then 1 else 0) := by
  unfold occurrences
  rw [List.range_succ, List.countP_append]
  by_cases h : tv.getD i 0 = v <;> simp [List.countP_cons, h]

theorem occurrences_le (tv : List Nat) (i v : Nat) : occurrences tv i v ≤ i := by
  unfold occurrences
  calc (List.range i).countP _ ≤ (List.range i).length := List.countP_le_length _
    _ = i := List.length_range i

theorem binBody_step (N : Nat) (hN : N < 65536) (m0 : Machine)
    (hlen : m0.timeValues.length = N + 1)
    (hin : ∀ j, j < N → BUCKET_MIN ≤ m0.timeValues.getD j 0 ∧
      m0.timeValues.getD j 0 < BUCKET_MAX)
    (i : Nat) (m : Machine) (hi : i < N) (hn : m.numRecorded = i) (hP : BinInv m0 i m) :
    ∃ m1, binBody m = .ok m1 ∧ m1.numRecorded = i ∧
      BinInv m0 (i + 1) { m1 with numRecorded := i + 1 } := by
  obtain ⟨htv, hblen, hcnt, hrest⟩ := hP
  obtain ⟨hlo, hhi⟩ := hin i hi
  simp only [BUCKET_MIN, BUCKET_MAX] at hlo hhi
  have hNB : NUM_BUCKETS = 100 := rfl
  have hr : readAt m.timeValues m.numRecorded = .ok (m0.timeValues.getD i 0) := by
    rw [hn, htv, readAt_ok _ _ (by omega)]
  have hidx : toU16 ((m0.timeValues.getD i 0 : Int) - (BUCKET_MIN : Int)) =
      m0.timeValues.getD i 0 - 950 := by
    simp only [toU16, BUCKET_MIN]; omega
  have hb : m0.timeValues.getD i 0 - 950 < m.bucketCounts.length := by omega
  have hc := hcnt (m0.timeValues.getD i 0 - 950) (by omega)
  have hcle := occurrences_le m0.timeValues i (BUCKET_MIN + (m0.timeValues.getD i 0 - 950))
  have hinc : toU16 ((m.bucketCounts.getD (m0.timeValues.getD i 0 - 950) 0 : Int) + 1) =
      m.bucketCounts.getD (m0.timeValues.getD i 0 - 950) 0 + 1 :=
    toU16_succ (by omega)
  refine ⟨{ m with bucketCounts := (m.bucketCounts.set (m0.timeValues.getD i 0 - 950)
      (m.bucketCounts.getD (m0.timeValues.getD i 0 - 950) 0 + 1)) }, ?_, hn, ?_⟩
  · unfold binBody
    rw [hr]
    simp only [hidx]
    rw [readAt_ok _ _ hb]
    simp only [hinc]
    rw [writeAt_ok _ _ _ hb]
  · refine ⟨htv, by simp [hblen], ?_, hrest⟩
    intro b hbk
    show (m.bucketCounts.set _ _).getD b 0 = _
    rw [occurrences_succ]
    by_cases hbe : m0.timeValues.getD i 0 - 950 = b
    · subst hbe
      rw [getD_set_self _ _ _ hb, hc, if_pos (by simp only [BUCKET_MIN]; omega)]
    · rw [getD_set_ne _ _ _ _ hbe, hcnt b hbk, if_neg (by simp only [BUCKET_MIN]; omega)]
      rfl

/-- On a period series whose values all lie in `[BUCKET_MIN, BUCKET_MAX)` the
bucket-count loop runs to completion from an all-zero table and establishes
its invariant at `N`. -/
theorem binLoop_spec (N : Nat) (hN : N < 65536) (m0 : Machine)
    (hlen : m0.timeValues.length = N + 1)
    (hzero : m0.bucketCounts = List.replicate NUM_BUCKETS 0)
    (hin : ∀ j, j < N → BUCKET_MIN ≤ m0.timeValues.getD j 0 ∧
      m0.timeValues.getD j 0 < BUCKET_MAX)
    (fuel : Nat) (hf : N < fuel) :
    ∃ m', binLoop N fuel m0 = .ok m' ∧ m'.numRecorded = N ∧ BinInv m0 N m' := by
  have hstart : BinInv m0 0 { m0 with numRecorded := 0 } := by
    refine ⟨rfl, by simp [hzero], ?_, ⟨rfl, rfl, rfl, rfl⟩⟩
    intro b hb
    show m0.bucketCounts.getD b 0 = _
    simp [hzero, occurrences, List.getD_eq_getElem?_getD, hb]
  exact forLoop_rule N binBody (BinInv m0) hN
    (fun i m hi hn hP => binBody_step N hN m0 hlen hin i m hi hn hP)
    fuel 0 { m0 with numRecorded := 0 } (Nat.zero_le N) (by omega) rfl hstart

/-- A first period value outside `[BUCKET_MIN, BUCKET_MAX)` makes the very first
iteration of the bucket-count loop index `bucketCounts` outside its extent. -/
theorem binLoop_fault (N : Nat) (hN : 0 < N) (m : Machine)
    (hlen : 0 < m.timeValues.length)
    (hblen : m.bucketCounts.length = NUM_BUCKETS)
    (h16 : m.timeValues.getD 0 0 < 65536)
    (hout : m.timeValues.getD 0 0 < BUCKET_MIN ∨ BUCKET_MAX ≤ m.timeValues.getD 0 0)
    (fuel : Nat) (hf : 0 < fuel) :
    binLoop N fuel m = .error .outOfBounds := by
  obtain ⟨fuel, rfl⟩ : ∃ k, fuel = k + 1 := ⟨fuel - 1, by omega⟩
  have hidx : NUM_BUCKETS ≤ toU16 ((m.timeValues.getD 0 0 : Int) - (BUCKET_MIN : Int)) := by
    simp only [BUCKET_MIN, BUCKET_MAX] at hout
    simp only [toU16, BUCKET_MIN, NUM_BUCKETS, BUCKET_MAX]
    omega
  simp only [binLoop, forLoop, hN, if_true, binBody]
  rw [readAt_ok _ _ hlen]
  simp only []
  rw [readAt_fault _ _ (by rw [hblen]; exact hidx)]

/-! ## The report loop -/

theorem reportLines_succ (t : List Nat) (i : Nat) :
    reportLines t (i + 1) =
      reportLines t i ++ (if t.getD i 0 ≠ 0 then [(i + BUCKET_MIN, t.getD i 0)] else []) := by
  unfold reportLines
  rw [List.range_succ, List.filter_append, List.map_append]
  by_cases h : t.getD i 0 = 0
  · simp only [h, ne_eq, not_true_eq_false, decide_False, if_false, List.filter_cons,
      List.filter_nil, List.map_nil, Bool.false_eq_true]
  · simp only [h, ne_eq, not_false_eq_true, decide_True, if_true, List.filter_cons,
      List.filter_nil, List.map_cons, List.map_nil]

theorem countSum_succ (t : List Nat) (i : Nat) :
    countSum t (i + 1) = countSum t i + t.getD i 0 := by
  unfold countSum
  rw [List.range_succ, List.map_append, List.sum_append]
  simp

theorem reportLines_zero (i : Nat) (t : List Nat) (h : ∀ j, j < i → t.getD j 0 = 0) :
    reportLines t i = [] := by
  induction i with
  | zero => rfl
  | succ i ih =>
    rw [reportLines_succ, ih (fun j hj => h j (by omega)), h i (by omega)]
    simp

theorem countSum_zero (i : Nat) (t : List Nat) (h : ∀ j, j < i → t.getD j 0 = 0) :
    countSum t i = 0 := by
  induction i with
  | zero => rfl
  | succ i ih =>
    rw [countSum_succ, ih (fun j hj => h j (by omega)), h i (by omega)]

theorem reportLines_increasing (t : List Nat) (i : Nat) :
    ((reportLines t i).map Prod.fst).Pairwise (fun a b => a < b) := by
  unfold reportLines
  rw [List.map_map]
  refine List.Pairwise.map _ ?_ (List.Pairwise.filter _ (List.pairwise_lt_range i))
  intro a b hab
  show a + BUCKET_MIN < b + BUCKET_MIN
  omega

theorem reportBody_step (m0 : Machine) (i : Nat) (m : Machine)
    (hi : i < NUM_BUCKETS) (hn : m.numRecorded = i) (hP : ReportInv m0 i m) :
    ∃ m1, reportBody m = .ok m1 ∧ m1.numRecorded = i ∧
      ReportInv m0 (i + 1) { m1 with numRecorded := i + 1 } := by
  obtain ⟨hblen, hdone, htodo, hpr, hmeas, hrest⟩ := hP
  have hNB : NUM_BUCKETS = 100 := rfl
  have hib : i < m.bucketCounts.length := by omega
  have hr : readAt m.bucketCounts m.numRecorded = .ok (m0.bucketCounts.getD i 0) := by
    rw [hn, readAt_ok _ _ hib, htodo i (le_refl i)]
  have hw : writeAt m.bucketCounts m.numRecorded 0 = .ok (m.bucketCounts.set i 0) := by
    rw [hn, writeAt_ok _ _ _ hib]
  have hval : toU16 ((m.numRecorded : Int) + (BUCKET_MIN : Int)) = i + BUCKET_MIN := by
    rw [hn]; simp only [toU16, BUCKET_MIN]; omega
  by_cases hc : m0.bucketCounts.getD i 0 = 0
  · refine ⟨m, ?_, hn, ?_⟩
    · unfold reportBody
      rw [hr, hc]
      rfl
    · refine ⟨hblen, ?_, ?_, ?_, ?_, hrest⟩
      · intro j hj
        by_cases hji : j = i
        · subst hji; show m.bucketCounts.getD j 0 = 0
          rw [htodo j (le_refl j), hc]
        · exact hdone j (by omega)
      · intro j hj
        exact htodo j (by omega)
      · show m.printed = _
        rw [hpr, reportLines_succ, hc]
        simp
      · show m.measInRange = _
        rw [hmeas, countSum_succ, hc]
        rfl
  · refine ⟨{ m with
        printed := m.printed ++ [(i + BUCKET_MIN, m0.bucketCounts.getD i 0)]
        measInRange := toU16 ((m.measInRange : Int) + (m0.bucketCounts.getD i 0 : Int))
        bucketCounts := m.bucketCounts.set i 0
        pCounter := toU8 ((if m.pCounter = MAX_PAUSE_LINES then 0 else m.pCounter) + 1) },
      ?_, hn, ?_⟩
    · unfold reportBody
      rw [hr]
      simp only [hc, ne_eq, not_false_eq_true, if_true, hw, hval]
    · refine ⟨by simp [hblen], ?_, ?_, ?_, ?_, hrest⟩
      · intro j hj
        show (m.bucketCounts.set i 0).getD j 0 = 0
        by_cases hji : i = j
        · subst hji; exact getD_set_self _ _ _ hib
        · rw [getD_set_ne _ _ _ _ hji]; exact hdone j (by omega)
      · intro j hj
        show (m.bucketCounts.set i 0).getD j 0 = _
        rw [getD_set_ne _ _ _ _ (by omega)]; exact htodo j (by omega)
      · show m.printed ++ _ = _
        rw [hpr, reportLines_succ, if_pos hc, List.append_assoc]
      · show toU16 ((m.measInRange : Int) + (m0.bucketCounts.getD i 0 : Int)) = _
        rw [hmeas, countSum_succ]
        simp only [toU16]
        split <;> split <;> omega

/-- The report loop runs to completion on a table of `NUM_BUCKETS` counters and
establishes its invariant at `NUM_BUCKETS`. -/
theorem reportLoop_spec (m0 : Machine) (hblen : m0.bucketCounts.length = NUM_BUCKETS)
    (fuel : Nat) (hf : NUM_BUCKETS < fuel) :
    ∃ m', reportLoop fuel m0 = .ok m' ∧ m'.numRecorded = NUM_BUCKETS ∧
      ReportInv m0 NUM_BUCKETS m' := by
  have hstart : ReportInv m0 0 { m0 with numRecorded := 0 } := by
    refine ⟨hblen, ?_, ?_, ?_, ?_, ⟨rfl, rfl, rfl⟩⟩
    · intro j hj; omega
    · intro j _; rfl
    · simp [reportLines]
    · simp [countSum]
  exact forLoop_rule NUM_BUCKETS reportBody (ReportInv m0) (by decide)
    (fun i m hi hn hP => reportBody_step m0 i m hi hn hP)
    fuel 0 { m0 with numRecorded := 0 } (Nat.zero_le _) (by omega) rfl hstart

/-! ## The claims -/

theorem toU16_cast (x : Int) : ((toU16 x : Nat) : Int) = x % 65536 := by
  unfold toU16
  omega

theorem eq_replicate_of_getD (l : List Nat) (n : Nat) (hlen : l.length = n)
    (h : ∀ j, j < n → l.getD j 0 = 0) : l = List.replicate n 0 := by
  rw [List.eq_replicate_iff]
  refine ⟨hlen, ?_⟩
  intro b hb
  obtain ⟨j, hj, rfl⟩ := List.getElem_of_mem hb
  have := h j (by omega)
  rw [List.getD_eq_getElem?_getD, List.getElem?_eq_getElem hj] at this
  simpa using this

theorem forLoop_zero (body : Machine → Except Fault Machine) (fuel : Nat) (hf : 0 < fuel)
    (m : Machine) : forLoop 0 body fuel m = .ok m := by
  obtain ⟨fuel, rfl⟩ : ∃ k, fuel = k + 1 := ⟨fuel - 1, by omega⟩
  simp [forLoop]

/-- C1 (Delta Transform), as amended. On a full buffer of `N + 1` raw samples the
time-differential loop of `main` runs to completion and leaves, in each of the
first `N` entries, the difference of the two adjacent raw samples modulo
`2^16`; `raw` is the buffer content before the loop. -/
theorem delta_transform (N : Nat) (hN : N < 65536) (m : Machine)
    (hlen : m.timeValues.length = N + 1) (fuel : Nat) (hf : N < fuel) :
    ∃ m', deltaLoop N fuel m = .ok m' ∧ m'.timeValues.length = N + 1 ∧
      ∀ i, i < N → (m'.timeValues.getD i 0 : Int) =
        ((m.timeValues.getD (i + 1) 0 : Int) - (m.timeValues.getD i 0 : Int)) % 65536 := by
  obtain ⟨m', hrun, _, hinv⟩ := deltaLoop_spec N hN m hlen fuel hf
  refine ⟨m', hrun, hinv.1, ?_⟩
  intro i hi
  rw [hinv.2.1 i hi, period, toU16_cast]

/-- The Delta Transform statement at the wraparound example: one reading, raw
samples `[65500, 100]`. -/
theorem delta_transform_witness :
    1 < 65536 ∧
    (atSessionTop [65500, 100] (List.replicate NUM_BUCKETS 0)).timeValues.length = 1 + 1 ∧
    1 < 2 ∧
    ∃ m', deltaLoop 1 2 (atSessionTop [65500, 100] (List.replicate NUM_BUCKETS 0)) = .ok m' ∧
      m'.timeValues.length = 1 + 1 ∧
      ∀ i, i < 1 → (m'.timeValues.getD i 0 : Int) =
        (((atSessionTop [65500, 100] (List.replicate NUM_BUCKETS 0)).timeValues.getD
            (i + 1) 0 : Int) -
          ((atSessionTop [65500, 100] (List.replicate NUM_BUCKETS 0)).timeValues.getD
            i 0 : Int)) % 65536 :=
  ⟨by decide, rfl, by decide,
    delta_transform 1 (by decide) (atSessionTop [65500, 100] (List.replicate NUM_BUCKETS 0))
      rfl 2 (by decide)⟩

/-- C1, the example as stated fails: on the raw samples `[65500, 100]` (one
reading) the time-differential loop stores the period
`(100 - 65500) mod 2^16 = 136`, not 636. -/
theorem delta_wraparound_is_136 :
    (deltaLoop 1 2 (atSessionTop [65500, 100] (List.replicate NUM_BUCKETS 0))).map
        (fun m => m.timeValues.getD 0 0) = .ok 136 ∧
    (deltaLoop 1 2 (atSessionTop [65500, 100] (List.replicate NUM_BUCKETS 0))).map
        (fun m => m.timeValues.getD 0 0) ≠ .ok 636 := by
  constructor <;>
    simp [deltaLoop, forLoop, deltaBody, atSessionTop, readAt, writeAt, toU16, Except.map,
      minValueInit]

/-- C2 (Capture Buffer capacity). From a session start on a buffer of `N + 1`
entries, whatever edges arrive, the handler is invoked for the first
`min (number of edges) (N + 1)` of them only; its `k`-th invocation writes
index `k - 1` (the log of written indices is `0, 1, 2, ...`), every written
index is at most `N`, the written entries hold the captured counts, and the
interrupt is still enabled exactly when fewer than `N + 1` invocations have
happened. -/
theorem capture_buffer_capacity (N : Nat) (hN : N + 1 < 65536) (m : Machine)
    (hlen : m.timeValues.length = N + 1) (ts : List Nat) :
    ∃ m', runEdges N (sessionStart m) ts = .ok (m', List.range (min ts.length (N + 1))) ∧
      (∀ k, k ∈ List.range (min ts.length (N + 1)) → k ≤ N) ∧
      m'.TIE_C1I = decide (ts.length < N + 1) ∧
      m'.numRecorded = min ts.length (N + 1) ∧
      m'.timeValues.length = N + 1 ∧
      (∀ k, k < min ts.length (N + 1) → m'.timeValues.getD k 0 = toU16 (ts.getD k 0)) ∧
      (∀ j, min ts.length (N + 1) ≤ j → m'.timeValues.getD j 0 = m.timeValues.getD j 0) := by
  obtain ⟨m', hrun, hT, hn, hl, _, hnew, hold⟩ :=
    runEdges_spec N hN ts 0 (sessionStart m) (Nat.zero_le N) rfl rfl hlen
  simp only [Nat.sub_zero, Nat.zero_add] at hrun hT hn hnew hold
  refine ⟨m', ?_, ?_, hT, hn, hl, hnew, ?_⟩
  · rw [hrun, List.range_eq_range']
  · intro k hk
    rw [List.mem_range] at hk
    omega
  · intro j hj
    exact hold j (Or.inr hj)

/-- The capture-buffer statement for the source value of `NUM_READINGS` and
three edges. -/
theorem capture_buffer_capacity_witness :
    NUM_READINGS + 1 < 65536 ∧
    (atSessionTop (List.replicate (NUM_READINGS + 1) 0)
      (List.replicate NUM_BUCKETS 0)).timeValues.length = NUM_READINGS + 1 ∧
    ∃ m', runEdges NUM_READINGS
        (sessionStart (atSessionTop (List.replicate (NUM_READINGS + 1) 0)
          (List.replicate NUM_BUCKETS 0))) [10, 1010, 2010] =
        .ok (m', List.range (min [10, 1010, 2010].length (NUM_READINGS + 1))) ∧
      (∀ k, k ∈ List.range (min [10, 1010, 2010].length (NUM_READINGS + 1)) →
        k ≤ NUM_READINGS) ∧
      m'.TIE_C1I = decide ([10, 1010, 2010].length < NUM_READINGS + 1) ∧
      m'.numRecorded = min [10, 1010, 2010].length (NUM_READINGS + 1) ∧
      m'.timeValues.length = NUM_READINGS + 1 ∧
      (∀ k, k < min [10, 1010, 2010].length (NUM_READINGS + 1) →
        m'.timeValues.getD k 0 = toU16 (([10, 1010, 2010] : List Nat).getD k 0)) ∧
      (∀ j, min [10, 1010, 2010].length (NUM_READINGS + 1) ≤ j →
        m'.timeValues.getD j 0 =
          (atSessionTop (List.replicate (NUM_READINGS + 1) 0)
            (List.replicate NUM_BUCKETS 0)).timeValues.getD j 0) :=
  ⟨by decide, by simp [atSessionTop],
    capture_buffer_capacity NUM_READINGS (by decide)
      (atSessionTop (List.replicate (NUM_READINGS + 1) 0) (List.replicate NUM_BUCKETS 0))
      (by simp [atSessionTop]) [10, 1010, 2010]⟩

/-- C3 (Producer/consumer handoff) fails on the code: after exactly
`NUM_READINGS` edges from session start the busy-wait of `main` is over
(`numRecorded` is no longer below `NUM_READINGS`), yet the capture interrupt is
still enabled, only the indices `0 .. NUM_READINGS - 1` have been written, and
`timeValues[NUM_READINGS]` still holds its stale content (here 7). -/
theorem handoff_exits_one_sample_early :
    ∃ m', runEdges NUM_READINGS
        (sessionStart (atSessionTop (List.replicate (NUM_READINGS + 1) 7)
          (List.replicate NUM_BUCKETS 0)))
        (List.replicate NUM_READINGS 0) = .ok (m', List.range NUM_READINGS) ∧
      waitDone NUM_READINGS m' = true ∧
      m'.TIE_C1I = true ∧
      m'.numRecorded = NUM_READINGS ∧
      m'.timeValues.getD NUM_READINGS 0 = 7 := by
  obtain ⟨m', hrun, hT, hn, _, _, _, hold⟩ :=
    runEdges_spec NUM_READINGS (by decide) (List.replicate NUM_READINGS 0) 0
      (sessionStart (atSessionTop (List.replicate (NUM_READINGS + 1) 7)
        (List.replicate NUM_BUCKETS 0)))
      (Nat.zero_le _) rfl rfl (by simp [sessionStart, atSessionTop])
  have hmin : min (List.replicate NUM_READINGS 0).length (NUM_READINGS + 1 - 0) =
      NUM_READINGS := by
    simp
  rw [hmin] at hrun hn hold
  refine ⟨m', ?_, ?_, ?_, ?_, ?_⟩
  · rw [hrun, List.range_eq_range']
  · simp [waitDone, hn]
  · rw [hT]; simp
  · simpa using hn
  · rw [hold NUM_READINGS (Or.inr (by omega))]
    simp [sessionStart, atSessionTop, List.getD_eq_getElem?_getD]

/-- C4 (Histogram Accumulator, in-range values). On a period series of `N`
values that all lie in `[BUCKET_MIN, BUCKET_MAX)`, the bucket-count loop started
from an all-zero table runs to completion, and afterwards every bucket `b`
holds the number of indices `i < N` whose period value is `BUCKET_MIN + b`. -/
theorem histogram_in_range (N : Nat) (hN : N < 65536) (m : Machine)
    (hlen : m.timeValues.length = N + 1)
    (hzero : m.bucketCounts = List.replicate NUM_BUCKETS 0)
    (hin : ∀ j, j < N → BUCKET_MIN ≤ m.timeValues.getD j 0 ∧
      m.timeValues.getD j 0 < BUCKET_MAX)
    (fuel : Nat) (hf : N < fuel) :
    ∃ m', binLoop N fuel m = .ok m' ∧ m'.bucketCounts.length = NUM_BUCKETS ∧
      ∀ b, b < NUM_BUCKETS → m'.bucketCounts.getD b 0 =
        ((List.range N).filter
          (fun i => decide (m.timeValues.getD i 0 = BUCKET_MIN + b))).length := by
  obtain ⟨m', hrun, _, _, hbl, hcnt, _⟩ := binLoop_spec N hN m hlen hzero hin fuel hf
  refine ⟨m', hrun, hbl, ?_⟩
  intro b hb
  rw [hcnt b hb, occurrences, List.countP_eq_length_filter]

/-- The in-range histogram statement for the source value of `NUM_READINGS` and
a steady signal with period 1000. -/
theorem histogram_in_range_witness :
    NUM_READINGS < 65536 ∧
    (atSessionTop (List.replicate (NUM_READINGS + 1) 1000)
      (List.replicate NUM_BUCKETS 0)).timeValues.length = NUM_READINGS + 1 ∧
    (atSessionTop (List.replicate (NUM_READINGS + 1) 1000)
      (List.replicate NUM_BUCKETS 0)).bucketCounts = List.replicate NUM_BUCKETS 0 ∧
    (∀ j, j < NUM_READINGS →
      BUCKET_MIN ≤ (atSessionTop (List.replicate (NUM_READINGS + 1) 1000)
        (List.replicate NUM_BUCKETS 0)).timeValues.getD j 0 ∧
      (atSessionTop (List.replicate (NUM_READINGS + 1) 1000)
        (List.replicate NUM_BUCKETS 0)).timeValues.getD j 0 < BUCKET_MAX) ∧
    ∃ m', binLoop NUM_READINGS (NUM_READINGS + 1)
        (atSessionTop (List.replicate (NUM_READINGS + 1) 1000)
          (List.replicate NUM_BUCKETS 0)) = .ok m' ∧
      m'.bucketCounts.length = NUM_BUCKETS ∧
      ∀ b, b < NUM_BUCKETS → m'.bucketCounts.getD b 0 =
        ((List.range NUM_READINGS).filter
          (fun i => decide ((atSessionTop (List.replicate (NUM_READINGS + 1) 1000)
            (List.replicate NUM_BUCKETS 0)).timeValues.getD i 0 = BUCKET_MIN + b))).length :=
  have hin : ∀ j, j < NUM_READINGS →
      BUCKET_MIN ≤ (atSessionTop (List.replicate (NUM_READINGS + 1) 1000)
        (List.replicate NUM_BUCKETS 0)).timeValues.getD j 0 ∧
      (atSessionTop (List.replicate (NUM_READINGS + 1) 1000)
        (List.replicate NUM_BUCKETS 0)).timeValues.getD j 0 < BUCKET_MAX := by
    intro j hj
    have hj1 : j < NUM_READINGS + 1 := by omega
    simp [atSessionTop, List.getD_eq_getElem?_getD, List.getElem?_replicate, hj1,
      BUCKET_MIN, BUCKET_MAX]
  ⟨by decide, by simp [atSessionTop], rfl, hin,
    histogram_in_range NUM_READINGS (by decide)
      (atSessionTop (List.replicate (NUM_READINGS + 1) 1000) (List.replicate NUM_BUCKETS 0))
      (by simp [atSessionTop]) rfl hin (NUM_READINGS + 1) (by decide)⟩

/-- The in-range example: raw samples `[1000, 1975, 2950]` (two readings) give
the periods `[975, 975]`, count 2 in the bucket for 975 and 0 in every other. -/
theorem histogram_example :
    (computeResults 2 3
        (atSessionTop [1000, 1975, 2950] (List.replicate NUM_BUCKETS 0))).toOption.map
      (fun m => (m.timeValues.take 2, m.bucketCounts)) =
      some ([975, 975], List.replicate 25 0 ++ [2] ++ List.replicate 74 0) := by
  decide

theorem indicator_sum (v n : Nat) :
    ((List.range n).map (fun b => if v = BUCKET_MIN + b then 1 else 0)).sum =
      if BUCKET_MIN ≤ v ∧ v < BUCKET_MIN + n then 1 else 0 := by
  induction n with
  | zero =>
    have : ¬ (BUCKET_MIN ≤ v ∧ v < BUCKET_MIN + 0) := by omega
    rw [if_neg this]
    rfl
  | succ n ih =>
    rw [List.range_succ, List.map_append, List.sum_append, ih]
    simp only [List.map_cons, List.map_nil, List.sum_cons, List.sum_nil, Nat.add_zero]
    split <;> split <;> split <;> omega

theorem occurrences_sum (tv : List Nat) (n : Nat) :
    ∀ i, (∀ j, j < i → BUCKET_MIN ≤ tv.getD j 0 ∧ tv.getD j 0 < BUCKET_MIN + n) →
      ((List.range n).map (fun b => occurrences tv i (BUCKET_MIN + b))).sum = i := by
  intro i
  induction i with
  | zero =>
    intro _
    have : (fun b => occurrences tv 0 (BUCKET_MIN + b)) = fun _ => 0 := by
      funext b; rfl
    rw [this]
    simp
  | succ i ih =>
    intro hin
    have hfun : (fun b => occurrences tv (i + 1) (BUCKET_MIN + b)) =
        fun b => occurrences tv i (BUCKET_MIN + b) +
          (if tv.getD i 0 = BUCKET_MIN + b then 1 else 0) := by
      funext b; exact occurrences_succ tv i (BUCKET_MIN + b)
    rw [hfun, List.sum_map_add, ih (fun j hj => hin j (by omega)), indicator_sum,
      if_pos (hin i (by omega))]

/-- Conservation of samples on in-range series: when every period value lies in
`[BUCKET_MIN, BUCKET_MAX)` (so none is out of range), the table left by the
bucket-count loop sums to `N`, and the report loop, entered with
`measInRange = 0`, ends with `measInRange = N`. A series with a value outside
the range makes the loop write outside `bucketCounts` (`binLoop_fault`); what
that write hits is a matter of memory layout, which this development does not
model. -/
theorem conservation_in_range (N : Nat) (hN : N < 65536) (m : Machine)
    (hlen : m.timeValues.length = N + 1)
    (hzero : m.bucketCounts = List.replicate NUM_BUCKETS 0)
    (hmeas : m.measInRange = 0)
    (hin : ∀ j, j < N → BUCKET_MIN ≤ m.timeValues.getD j 0 ∧
      m.timeValues.getD j 0 < BUCKET_MAX)
    (fuel : Nat) (hf : N < fuel) (hfb : NUM_BUCKETS < fuel) :
    ∃ m1, binLoop N fuel m = .ok m1 ∧ countSum m1.bucketCounts NUM_BUCKETS = N ∧
      ∃ m2, reportLoop fuel m1 = .ok m2 ∧ m2.measInRange = N := by
  obtain ⟨m1, hrun, _, _, hbl, hcnt, hmr, _⟩ := binLoop_spec N hN m hlen hzero hin fuel hf
  have hsum : countSum m1.bucketCounts NUM_BUCKETS = N := by
    unfold countSum
    rw [List.map_congr_left (fun b hb => hcnt b (List.mem_range.mp hb))]
    exact occurrences_sum m.timeValues NUM_BUCKETS N hin
  obtain ⟨m2, hrun2, _, _, _, _, _, hm2, _⟩ := reportLoop_spec m1 hbl fuel hfb
  refine ⟨m1, hrun, hsum, m2, hrun2, ?_⟩
  rw [hm2, hsum, hmr, hmeas]
  split <;> omega

theorem rawOutOfRange_length :
    (atSessionTop rawOutOfRange (List.replicate NUM_BUCKETS 0)).timeValues.length =
      NUM_READINGS + 1 := by
  simp only [atSessionTop, rawOutOfRange, List.length_cons, List.length_replicate]
  decide

theorem computeResults_ok (N fuel : Nat) (m m1 : Machine)
    (h : deltaLoop N fuel m = .ok m1) :
    computeResults N fuel m = binLoop N fuel m1 := by
  unfold computeResults
  rw [h]

/-- C5 (out-of-range values are dropped) fails on the code: for the session
with raw samples `0, 500, 1600, ...` the time-differential loop yields the
periods 500 and 1100 first, and the bucket-count loop then indexes
`bucketCounts` at `(500 - BUCKET_MIN) mod 2^16 = 65086`, outside the table. -/
theorem binning_indexes_outside_table :
    (∃ m1, deltaLoop NUM_READINGS (NUM_READINGS + 1)
        (atSessionTop rawOutOfRange (List.replicate NUM_BUCKETS 0)) = .ok m1 ∧
      m1.timeValues.getD 0 0 = 500 ∧ m1.timeValues.getD 1 0 = 1100 ∧
      m1.bucketCounts = List.replicate NUM_BUCKETS 0 ∧
      toU16 ((m1.timeValues.getD 0 0 : Int) - (BUCKET_MIN : Int)) = 65086) ∧
    computeResults NUM_READINGS (NUM_READINGS + 1)
      (atSessionTop rawOutOfRange (List.replicate NUM_BUCKETS 0)) = .error .outOfBounds := by
  obtain ⟨m1, hrun, _, hl, hdone, _, ⟨hbc, _⟩, _⟩ :=
    deltaLoop_spec NUM_READINGS (by decide)
      (atSessionTop rawOutOfRange (List.replicate NUM_BUCKETS 0))
      rawOutOfRange_length (NUM_READINGS + 1) (by decide)
  have h0 : m1.timeValues.getD 0 0 = 500 := by
    rw [hdone 0 (by decide)]; decide
  have h1 : m1.timeValues.getD 1 0 = 1100 := by
    rw [hdone 1 (by decide)]; decide
  have hb : m1.bucketCounts = List.replicate NUM_BUCKETS 0 := hbc
  refine ⟨⟨m1, hrun, h0, h1, hb, by rw [h0]; decide⟩, ?_⟩
  exact (computeResults_ok _ _ _ _ hrun).trans
    (binLoop_fault NUM_READINGS (by decide) m1 (by rw [hl]; omega)
      (by rw [hb]; exact List.length_replicate _ _)
      (by rw [h0]; decide) (Or.inl (by rw [h0]; decide)) (NUM_READINGS + 1) (by decide))

/-- C7 (Maximum). With `maxValue` at its reset value 0 and at least one reading,
the time-differential loop runs to completion on the full buffer, keeps its
`N + 1` entries, stores in each of the first `N` the period
`(raw[i+1] - raw[i]) mod 2^16` of the raw samples it started from, and leaves in
`maxValue` the maximum of these period values `timeValues[0 .. N)`: it bounds
every one of them and is one of them. -/
theorem maximum_of_periods (N : Nat) (hN : N < 65536) (hpos : 0 < N) (m : Machine)
    (hlen : m.timeValues.length = N + 1) (hmax : m.maxValue = 0)
    (fuel : Nat) (hf : N < fuel) :
    ∃ m', deltaLoop N fuel m = .ok m' ∧
      m'.timeValues.length = N + 1 ∧
      (∀ i, i < N → m'.timeValues.getD i 0 =
        toU16 ((m.timeValues.getD (i + 1) 0 : Int) - (m.timeValues.getD i 0 : Int))) ∧
      (∀ i, i < N →
        toU16 ((m.timeValues.getD (i + 1) 0 : Int) - (m.timeValues.getD i 0 : Int)) ≤
          m'.maxValue) ∧
      (∃ i, i < N ∧ m'.maxValue =
        toU16 ((m.timeValues.getD (i + 1) 0 : Int) - (m.timeValues.getD i 0 : Int))) ∧
      (∀ i, i < N → m'.timeValues.getD i 0 ≤ m'.maxValue) ∧
      ∃ i, i < N ∧ m'.maxValue = m'.timeValues.getD i 0 := by
  obtain ⟨m', hrun, _, hl, hdone, _, _, ⟨hub, _, hatt⟩, _⟩ :=
    deltaLoop_spec N hN m hlen fuel hf
  have hex : ∃ i, i < N ∧ m'.maxValue = period m.timeValues i := by
    rcases hatt with h | ⟨j, hj, h⟩
    · refine ⟨0, hpos, ?_⟩
      have := hub 0 hpos
      omega
    · exact ⟨j, hj, h⟩
  refine ⟨m', hrun, hl, hdone, hub, hex, ?_, ?_⟩
  · intro i hi
    rw [hdone i hi]; exact hub i hi
  · obtain ⟨j, hj, h⟩ := hex
    exact ⟨j, hj, by rw [hdone j hj]; exact h⟩

/-- The maximum statement on the raw samples `[0, 500, 1600]` (two readings):
the periods are 500 and 1100, `maxValue` is raised at both and ends at 1100. -/
theorem maximum_of_periods_witness :
    (2 < 65536 ∧ 0 < 2 ∧
    (atSessionTop [0, 500, 1600] (List.replicate NUM_BUCKETS 0)).timeValues.length = 2 + 1 ∧
    (atSessionTop [0, 500, 1600] (List.replicate NUM_BUCKETS 0)).maxValue = 0 ∧
    2 < 3 ∧
    ∃ m', deltaLoop 2 3 (atSessionTop [0, 500, 1600] (List.replicate NUM_BUCKETS 0)) = .ok m' ∧
      m'.timeValues.length = 2 + 1 ∧
      (∀ i, i < 2 → m'.timeValues.getD i 0 =
        toU16 (((atSessionTop [0, 500, 1600]
            (List.replicate NUM_BUCKETS 0)).timeValues.getD (i + 1) 0 : Int) -
          ((atSessionTop [0, 500, 1600]
            (List.replicate NUM_BUCKETS 0)).timeValues.getD i 0 : Int))) ∧
      (∀ i, i < 2 →
        toU16 (((atSessionTop [0, 500, 1600]
            (List.replicate NUM_BUCKETS 0)).timeValues.getD (i + 1) 0 : Int) -
          ((atSessionTop [0, 500, 1600]
            (List.replicate NUM_BUCKETS 0)).timeValues.getD i 0 : Int)) ≤ m'.maxValue) ∧
      (∃ i, i < 2 ∧ m'.maxValue =
        toU16 (((atSessionTop [0, 500, 1600]
            (List.replicate NUM_BUCKETS 0)).timeValues.getD (i + 1) 0 : Int) -
          ((atSessionTop [0, 500, 1600]
            (List.replicate NUM_BUCKETS 0)).timeValues.getD i 0 : Int))) ∧
      (∀ i, i < 2 → m'.timeValues.getD i 0 ≤ m'.maxValue) ∧
      ∃ i, i < 2 ∧ m'.maxValue = m'.timeValues.getD i 0) ∧
    (deltaLoop 2 3 (atSessionTop [0, 500, 1600] (List.replicate NUM_BUCKETS 0))).toOption.map
      (fun m => (m.timeValues, m.maxValue)) = some ([500, 1100, 1600], 1100) :=
  ⟨⟨by decide, by decide, rfl, rfl, by decide,
    maximum_of_periods 2 (by decide) (by decide)
      (atSessionTop [0, 500, 1600] (List.replicate NUM_BUCKETS 0)) rfl rfl 3 (by decide)⟩,
    by decide⟩

/-- C8 (Minimum) fails on the code: `UINT16 minValue = 99999` stores
`99999 mod 2^16 = 34463`; for a 25 Hz input every one of the `NUM_READINGS`
periods is 40000, yet the loop leaves `minValue = 34463`, which is no period of
the series. -/
theorem minimum_sentinel_truncated :
    minValueInit = 34463 ∧
    ∃ m', deltaLoop NUM_READINGS (NUM_READINGS + 1)
        (atSessionTop rawSlow (List.replicate NUM_BUCKETS 0)) = .ok m' ∧
      (∀ i, i < NUM_READINGS → m'.timeValues.getD i 0 = 40000) ∧
      m'.minValue = 34463 := by
  have hinit : minValueInit = 34463 := by decide
  refine ⟨hinit, ?_⟩
  obtain ⟨m', hrun, _, _, hdone, _, _, _, ⟨_, hmono, hatt⟩⟩ :=
    deltaLoop_spec NUM_READINGS (by decide)
      (atSessionTop rawSlow (List.replicate NUM_BUCKETS 0))
      (by simp [atSessionTop, rawSlow]) (NUM_READINGS + 1) (by decide)
  have hper : ∀ i, i < NUM_READINGS →
      period (atSessionTop rawSlow (List.replicate NUM_BUCKETS 0)).timeValues i = 40000 := by
    intro i hi
    simp only [NUM_READINGS] at hi
    have hi1 : i < 1001 := by omega
    have hi2 : i + 1 < 1001 := by omega
    simp only [period, atSessionTop, rawSlow, List.getD_eq_getElem?_getD, List.getElem?_map,
      List.getElem?_range, hi1, hi2, NUM_READINGS, toU16, Option.map_some', Option.getD_some]
    omega
  have hm0 : (atSessionTop rawSlow (List.replicate NUM_BUCKETS 0)).minValue = 34463 := hinit
  refine ⟨m', hrun, ?_, ?_⟩
  · intro i hi
    rw [hdone i hi, hper i hi]
  · rcases hatt with h | ⟨j, hj, h⟩
    · rw [h, hm0]
    · rw [hper j hj] at h
      rw [hm0] at hmono
      omega

/-- C9 (Report contents). On a table of `NUM_BUCKETS` counters the report loop
runs to completion and appends to the printed lines one `(bucket value, count)`
entry for exactly the buckets whose counter is non-zero, in increasing bucket
order, the bucket value being `index + BUCKET_MIN` and the count the counter as
it was before the loop; the bucket values printed are strictly increasing. -/
theorem report_contents (m : Machine) (hblen : m.bucketCounts.length = NUM_BUCKETS)
    (fuel : Nat) (hf : NUM_BUCKETS < fuel) :
    ∃ m', reportLoop fuel m = .ok m' ∧
      m'.printed = m.printed ++
        ((List.range NUM_BUCKETS).filter (fun j => decide (m.bucketCounts.getD j 0 ≠ 0))).map
          (fun j => (j + BUCKET_MIN, m.bucketCounts.getD j 0)) ∧
      ((((List.range NUM_BUCKETS).filter
          (fun j => decide (m.bucketCounts.getD j 0 ≠ 0))).map
            (fun j => (j + BUCKET_MIN, m.bucketCounts.getD j 0))).map Prod.fst).Pairwise
        (fun a b => a < b) := by
  obtain ⟨m', hrun, _, _, _, _, hpr, _⟩ := reportLoop_spec m hblen fuel hf
  exact ⟨m', hrun, hpr, reportLines_increasing m.bucketCounts NUM_BUCKETS⟩

/-- The report statement on the table with count 2 in the bucket for 975. -/
theorem report_contents_witness :
    (atSessionTop (List.replicate (NUM_READINGS + 1) 0)
      (List.replicate 25 0 ++ [2] ++ List.replicate 74 0)).bucketCounts.length = NUM_BUCKETS ∧
    NUM_BUCKETS < NUM_BUCKETS + 1 ∧
    ∃ m', reportLoop (NUM_BUCKETS + 1)
        (atSessionTop (List.replicate (NUM_READINGS + 1) 0)
          (List.replicate 25 0 ++ [2] ++ List.replicate 74 0)) = .ok m' ∧
      m'.printed =
        (atSessionTop (List.replicate (NUM_READINGS + 1) 0)
          (List.replicate 25 0 ++ [2] ++ List.replicate 74 0)).printed ++
        ((List.range NUM_BUCKETS).filter (fun j => decide
          ((atSessionTop (List.replicate (NUM_READINGS + 1) 0)
            (List.replicate 25 0 ++ [2] ++ List.replicate 74 0)).bucketCounts.getD j 0 ≠ 0))).map
          (fun j => (j + BUCKET_MIN,
            (atSessionTop (List.replicate (NUM_READINGS + 1) 0)
              (List.replicate 25 0 ++ [2] ++ List.replicate 74 0)).bucketCounts.getD j 0)) ∧
      ((((List.range NUM_BUCKETS).filter (fun j => decide
          ((atSessionTop (List.replicate (NUM_READINGS + 1) 0)
            (List.replicate 25 0 ++ [2] ++ List.replicate 74 0)).bucketCounts.getD j 0 ≠ 0))).map
          (fun j => (j + BUCKET_MIN,
            (atSessionTop (List.replicate (NUM_READINGS + 1) 0)
              (List.replicate 25 0 ++ [2] ++ List.replicate 74 0)).bucketCounts.getD j 0))).map
            Prod.fst).Pairwise (fun a b => a < b) :=
  ⟨by decide, by decide,
    report_contents
      (atSessionTop (List.replicate (NUM_READINGS + 1) 0)
        (List.replicate 25 0 ++ [2] ++ List.replicate 74 0))
      (by decide) (NUM_BUCKETS + 1) (by decide)⟩

/-- The report of the in-range example: the table with count 2 in the bucket
for 975 prints the single line `(975, 2)`, totals 2 and is left all zero. -/
theorem report_example :
    (reportLoop (NUM_BUCKETS + 1)
        (atSessionTop [975, 975, 2950]
          (List.replicate 25 0 ++ [2] ++ List.replicate 74 0))).toOption.map
      (fun m => (m.printed, m.measInRange, m.bucketCounts)) =
      some ([(975, 2)], 2, List.replicate NUM_BUCKETS 0) := by
  decide

/-- C10 (Clear after report). On a table of `NUM_BUCKETS` counters the report
loop runs to completion and leaves every counter zero; the next session start
resets `measInRange` to 0; and a following session that bins no values
(bucket-count loop over zero readings, then the report loop) ends with an
all-zero table, a total of 0 and no new printed line. -/
theorem clear_after_report (m : Machine) (hblen : m.bucketCounts.length = NUM_BUCKETS)
    (fuel : Nat) (hf : NUM_BUCKETS < fuel) :
    ∃ m1, reportLoop fuel m = .ok m1 ∧
      m1.bucketCounts = List.replicate NUM_BUCKETS 0 ∧
      (sessionStart m1).measInRange = 0 ∧
      ∃ m2, binLoop 0 fuel (sessionStart m1) = .ok m2 ∧
        ∃ m3, reportLoop fuel m2 = .ok m3 ∧
          m3.bucketCounts = List.replicate NUM_BUCKETS 0 ∧
          m3.measInRange = 0 ∧ m3.printed = m1.printed := by
  obtain ⟨m1, hrun1, _, hl1, hz1, _, _, _, _⟩ := reportLoop_spec m hblen fuel hf
  have hrep1 : m1.bucketCounts = List.replicate NUM_BUCKETS 0 :=
    eq_replicate_of_getD _ _ hl1 hz1
  refine ⟨m1, hrun1, hrep1, rfl,
    { sessionStart m1 with numRecorded := 0 }, ?_, ?_⟩
  · unfold binLoop
    exact forLoop_zero binBody fuel (by omega) _
  · have hl2 : ({ sessionStart m1 with numRecorded := 0 } :
        Machine).bucketCounts.length = NUM_BUCKETS := hl1
    obtain ⟨m3, hrun3, _, hl3, hz3, _, hpr3, hmeas3, _⟩ :=
      reportLoop_spec { sessionStart m1 with numRecorded := 0 } hl2 fuel hf
    have hzero : ∀ j, j < NUM_BUCKETS →
        ({ sessionStart m1 with numRecorded := 0 } :
          Machine).bucketCounts.getD j 0 = 0 :=
      hz1
    refine ⟨m3, hrun3, eq_replicate_of_getD _ _ hl3 hz3, ?_, ?_⟩
    · rw [hmeas3, countSum_zero _ _ hzero]
      rfl
    · rw [hpr3, reportLines_zero _ _ hzero, List.append_nil]
      rfl

/-- The clear-after-report statement on the table with count 2 in the bucket
for 975. -/
theorem clear_after_report_witness :
    (atSessionTop (List.replicate (NUM_READINGS + 1) 0)
      (List.replicate 25 0 ++ [2] ++ List.replicate 74 0)).bucketCounts.length = NUM_BUCKETS ∧
    NUM_BUCKETS < NUM_BUCKETS + 1 ∧
    ∃ m1, reportLoop (NUM_BUCKETS + 1)
        (atSessionTop (List.replicate (NUM_READINGS + 1) 0)
          (List.replicate 25 0 ++ [2] ++ List.replicate 74 0)) = .ok m1 ∧
      m1.bucketCounts = List.replicate NUM_BUCKETS 0 ∧
      (sessionStart m1).measInRange = 0 ∧
      ∃ m2, binLoop 0 (NUM_BUCKETS + 1) (sessionStart m1) = .ok m2 ∧
        ∃ m3, reportLoop (NUM_BUCKETS + 1) m2 = .ok m3 ∧
          m3.bucketCounts = List.replicate NUM_BUCKETS 0 ∧
          m3.measInRange = 0 ∧ m3.printed = m1.printed :=
  ⟨by decide, by decide,
    clear_after_report
      (atSessionTop (List.replicate (NUM_READINGS + 1) 0)
        (List.replicate 25 0 ++ [2] ++ List.replicate 74 0))
      (by decide) (NUM_BUCKETS + 1) (by decide)⟩

end WavePeriod
